import Mathlib

/- Shallow embedding of the IdleLoops predictor core
   (src/idleloops-predictor.user.js): the Prediction class
   (updateTicks / ticks / exp) and the Predictor simulation engine
   (update / tick / predict).

   Modelling choices:
   * JS numbers are rationals (the source only uses +, -, *, /, ceil on
     the paths embedded here; the loop cost / tick closures of the
     catalog are kept abstract as rational-valued functions).
   * JS exceptions and potentially nonterminating walk loops are
     Option-valued results: none = the JS code throws, or a walk loop
     does not finish within the provided fuel.
   * Host-page collaborators (statList, getLevelFromExp,
     getTotalBonusXP, historical loop totals) are parameters bundled in
     a Globals structure; they are pure queries during a pass.
   * Identifiers (action, stat and resource property names) are
     natural-number keys; key 0 plays the role of the mana resource.
   * The resource ledger is a total map with default 0, which absorbs
     the source's lazy "first touch creates the key as 0" behaviour
     (the engine itself only ever reads mana, which is always seeded). -/

namespace Koviko

/-- Identifier keys (JS string property names). -/
abbrev Name := Nat

/-- The resource key of mana (JS `resources.mana`). -/
def manaKey : Name := 0

/-- Accumulated stat experience; a key is present exactly when it maps to
some value (the JS `i in s` membership test). -/
abbrev Stats := Name → Option ℚ

/-- Resource ledger (JS `state.resources`), total with default 0. -/
abbrev Resources := Name → ℚ

/-- Pointwise update of a keyed table (JS property assignment). -/
def setF {α : Type} (f : Name → α) (k : Name) (v : α) : Name → α :=
  fun x => if x = k then v else f x

/-- Per-loop-action progression record (JS `state.progress[name]`). -/
structure Progression where
  progress : ℚ
  completed : ℚ
  total : ℚ
deriving DecidableEq

/-- Static data of one action (JS object returned by `translateClassNames`):
stat-cost weight map, experience multiplier, the value of the pure
`manaCost()` query, and the segment count for loop actions. -/
structure ActionDef where
  stats : Name → Option ℚ
  expMult : ℚ
  manaCost : ℚ
  segments : Nat

/-- Loop descriptor of a loop-capable action.  `cost` and `tickf` embed the
`loop.cost(p, a)(segment)` and `loop.tick(p, a, s, r)(offset)` closures: the
JS closures read the progression object (and stats/resources) at call time,
which is modelled by passing the current values explicitly.  `maxv` is the
value of `loop.max(action)` when `max` is defined. -/
structure LoopDef where
  maxv : Option ℚ
  cost : Progression → Int → ℚ
  tickf : Progression → Stats → Resources → Int → ℚ
  effSegment : Option (Resources → Resources)
  effLoop : Option (Resources → Resources)

/-- One Prediction: action definition, optional top-level resource effect,
optional loop descriptor (JS `Koviko.Prediction`). -/
structure Prediction where
  name : Name
  action : ActionDef
  effect : Option (Resources → Resources)
  loop : Option LoopDef

/-- External collaborators read from the host page, constant during a pass. -/
structure Globals where
  statList : List Name
  getLevelFromExp : ℚ → ℚ
  getTotalBonusXP : Name → ℚ
  histTotal : Name → ℚ

/-- Full simulation state (JS `state`). -/
structure SimState where
  stats : Stats
  resources : Resources
  progress : Name → Option Progression

/-- The mathematical ceiling on ℚ (JS `Math.ceil`), written through
`Rat.floor` so that it evaluates by kernel reduction; proved equal to
`Int.ceil` below. -/
def ceilQ (q : ℚ) : Int := -Rat.floor (-q)

/-- JS `Prediction.updateTicks(a, s)`:
`Math.ceil(a.manaCost() * cost - .000001)` where `cost` is the reduce over
`statList` adding `a.stats[i] / (1 + getLevelFromExp(s[i]) / 100)` whenever
`i in a.stats && i in s` and 0 otherwise. -/
def updateTicks (G : Globals) (a : ActionDef) (s : Stats) : Int :=
  let cost := G.statList.foldl
    (fun c i =>
      c + match a.stats i, s i with
        | some w, some e => w / (1 + G.getLevelFromExp e / 100)
        | _, _ => 0) 0
  ceilQ (a.manaCost * cost - 1 / 1000000)

/-- The stat-cost sum as worded by the spec (for the refinement claim about
`updateTicks`): the sum over stat names of
`weight(statName) / (1 + level(stats[statName]) / 100)`, a stat missing from
either table contributing 0. -/
def specStatCost (G : Globals) (a : ActionDef) (s : Stats) : ℚ :=
  (G.statList.map
    (fun i =>
      match a.stats i, s i with
      | some w, some e => w / (1 + G.getLevelFromExp e / 100)
      | _, _ => 0)).sum

/-- JS `Prediction.ticks()`: `this._ticks || this.updateTicks()`.  When the
cached tick count is 0 (falsy), the fallback re-invokes `updateTicks` with no
arguments, which unconditionally throws (`a.stats` of `undefined`); this is
modelled as `none`.  Any nonzero cached value is returned unchanged. -/
def ticksVal (T : Int) : Option Int := if T = 0 then none else some T

/-- Body of the `statList.forEach` of `Prediction.exp`: when
`i in a.stats && i in s`, add the per-tick experience to `s[i]`. -/
def expStep (G : Globals) (a : ActionDef) (T : Int) (s : Stats) (i : Name) : Stats :=
  match a.stats i, s i with
  | some w, some e =>
      setF s i (some (e + w * a.expMult * (a.manaCost / (T : ℚ)) * G.getTotalBonusXP i))
  | _, _ => s

/-- The `statList.forEach` of `Prediction.exp`, as structural recursion over
the remaining stat names. -/
def expApplyGo (G : Globals) (a : ActionDef) (T : Int) : List Name → Stats → Stats
  | [], s => s
  | i :: rest, s => expApplyGo G a T rest (expStep G a T s i)

/-- JS `Prediction.exp(a, s)`: for each `i` of `statList` with
`i in a.stats && i in s`, add
`a.stats[i] * a.expMult * (a.manaCost() / this.ticks()) * getTotalBonusXP(i)`
to `s[i]`.  `T` is the cached tick count; call sites guarantee `T ≠ 0`. -/
def expApply (G : Globals) (a : ActionDef) (T : Int) (s : Stats) : Stats :=
  expApplyGo G a T G.statList s

/-- First walk of `Predictor.tick`:
`for (; progress >= loopCost(segment); progress -= loopCost(segment++));`.
The progression is not mutated during this walk.  Fuel-limited: `none` means
the JS loop has not finished within `fuel` iterations. -/
def walk1 (cost : Progression → Int → ℚ) (prog : Progression) :
    Nat → ℚ → Int → Option (ℚ × Int)
  | 0, pr, seg => if pr ≥ cost prog seg then none else some (pr, seg)
  | fuel + 1, pr, seg =>
      if pr ≥ cost prog seg then walk1 cost prog fuel (pr - cost prog seg) (seg + 1)
      else some (pr, seg)

/-- JS `segment < maxSegments` where `maxSegments` is `Infinity` (none) when
the loop has no `max`. -/
def ltMax (seg : Int) (m : Option ℚ) : Bool :=
  match m with
  | none => true
  | some v => decide ((seg : ℚ) < v)

/-- Apply an optional resource-effect function. -/
def applyOpt (f : Option (Resources → Resources)) (r : Resources) : Resources :=
  match f with
  | none => r
  | some g => g r

/-- Second walk of `Predictor.tick`:
`for (; progress >= loopCost(segment) && segment < maxSegments;
       progress -= loopCost(segment++)) { ...completion block...; segment effect }`.
The body first handles loop completion when `segment >= totalSegments - 1`
(reset persisted progress, `completed += totalSegments`, `total++`,
`segment -= totalSegments`, loop effect), then applies the segment effect; the
update clause evaluates `loopCost` at the post-body segment and progression. -/
def walk2 (L : LoopDef) (ts : Nat) (maxS : Option ℚ) :
    Nat → ℚ → Int → Progression → Resources → Option (ℚ × Int × Progression × Resources)
  | 0, pr, seg, prog, res =>
      if pr ≥ L.cost prog seg ∧ ltMax seg maxS = true then none
      else some (pr, seg, prog, res)
  | fuel + 1, pr, seg, prog, res =>
      if pr ≥ L.cost prog seg ∧ ltMax seg maxS = true then
        if seg ≥ (ts : Int) - 1 then
          walk2 L ts maxS fuel
            (pr - L.cost (Progression.mk 0 (prog.completed + (ts : ℚ)) (prog.total + 1))
              (seg - (ts : Int)))
            (seg - (ts : Int) + 1)
            (Progression.mk 0 (prog.completed + (ts : ℚ)) (prog.total + 1))
            (applyOpt L.effSegment (applyOpt L.effLoop res))
        else
          walk2 L ts maxS fuel (pr - L.cost prog seg) (seg + 1) prog
            (applyOpt L.effSegment res)
      else some (pr, seg, prog, res)

/-- JS `Predictor.tick(prediction, state)` instrumented to also report the
`additionalProgress` of the tick and the final segment index (both 0 for
non-loop actions).  `T` is the cached tick count of the current run.  Returns
`none` when the JS code throws (`ticks()` with a zero cache, a missing
progression record) or a walk exhausts its fuel. -/
def tickFull (G : Globals) (fuel : Nat) (p : Prediction) (T : Int) (s : SimState) :
    Option (Bool × SimState × ℚ × Int) :=
  match ticksVal T with
  | none => none
  | some T0 =>
      let stats1 := expApply G p.action T0 s.stats
      match p.loop with
      | none => some (true, SimState.mk stats1 s.resources s.progress, 0, 0)
      | some L =>
          match s.progress p.name with
          | none => none
          | some prog =>
              let ts := p.action.segments
              let maxS := L.maxv.map (fun m => m * (ts : ℚ))
              match walk1 L.cost prog fuel prog.progress 0 with
              | none => none
              | some (pr1, seg1) =>
                  let ap := L.tickf prog stats1 s.resources seg1 * (p.action.manaCost / (T0 : ℚ))
                  let prog2 := Progression.mk (prog.progress + ap) prog.completed prog.total
                  match walk2 L ts maxS fuel (pr1 + ap) seg1 prog2 s.resources with
                  | none => none
                  | some (_, seg3, prog3, res3) =>
                      some (decide (ap ≠ 0) && ltMax seg3 maxS,
                            SimState.mk stats1 res3 (setF s.progress p.name (some prog3)),
                            ap, seg3)

/-- JS `Predictor.tick`: the instrumented tick without the extra report. -/
def tickOp (G : Globals) (fuel : Nat) (p : Prediction) (T : Int) (s : SimState) :
    Option (Bool × SimState) :=
  (tickFull G fuel p T s).map (fun x => (x.1, x.2.1))

/-- JS `state.resources.mana--`. -/
def decManaState (s : SimState) : SimState :=
  SimState.mk s.stats (setF s.resources manaKey (s.resources manaKey - 1)) s.progress

/-- Tick loop of `Predictor.predict`:
`for (let ticks = 0; ticks < prediction.ticks(); ticks++) {
   state.resources.mana--; if (!this.tick(prediction, state)) break; }`,
with the remaining iteration count as the recursion counter.  Also counts the
mana decrements performed. -/
def predictLoop (G : Globals) (fuel : Nat) (p : Prediction) (T : Int) :
    Nat → SimState → Option (SimState × Nat)
  | 0, s => some (s, 0)
  | r + 1, s =>
      let s1 := decManaState s
      match tickOp G fuel p T s1 with
      | none => none
      | some (true, s2) =>
          match predictLoop G fuel p T r s2 with
          | none => none
          | some (s3, k) => some (s3, k + 1)
      | some (false, s2) => some (s2, 1)

/-- JS `Predictor.predict(prediction, state)`: recompute `updateTicks` once at
the start of the run, then run the tick loop.  Evaluating the loop condition
calls `ticks()`, which throws when the freshly cached count is 0 (`none`); a
negative count simply yields zero iterations. -/
def predict (G : Globals) (fuel : Nat) (p : Prediction) (s : SimState) :
    Option (SimState × Nat) :=
  let T := updateTicks G p.action s.stats
  match ticksVal T with
  | none => none
  | some _ => predictLoop G fuel p T T.toNat s

/-- One repetition of one list entry (body of the `for (let loop = 0; ...)`
loop in `Predictor.update`): save the current mana, run the prediction, and
the mana validity check and the running-total increment both read the
post-ticks mana before the top-level effect is applied. -/
def runRep (G : Globals) (fuel : Nat) (p : Prediction) (s : SimState) (total : ℚ)
    (valid : Bool) : Option (SimState × ℚ × Bool) :=
  let currentMana := s.resources manaKey
  match predict G fuel p s with
  | none => none
  | some (s1, _) =>
      some (SimState.mk s1.stats (applyOpt p.effect s1.resources) s1.progress,
            total + (currentMana - s1.resources manaKey),
            valid && decide (s1.resources manaKey ≥ 0))

/-- All repetitions of one list entry; `valid` starts at `true` per entry
(the `let isValid = true` inside the per-action block of `update`). -/
def runEntry (G : Globals) (fuel : Nat) (p : Prediction) :
    Nat → SimState → ℚ → Bool → Option (SimState × ℚ × Bool)
  | 0, s, total, valid => some (s, total, valid)
  | n + 1, s, total, valid =>
      match runRep G fuel p s total valid with
      | none => none
      | some (s1, t1, v1) => runEntry G fuel p n s1 t1 v1

/-- `if (prediction.loop && !(prediction.name in state.progress))`: create the
progression record seeded with the host-supplied historical total. -/
def ensureProgress (G : Globals) (p : Prediction) (s : SimState) : SimState :=
  match p.loop, s.progress p.name with
  | some _, none =>
      SimState.mk s.stats s.resources
        (setF s.progress p.name (some (Progression.mk 0 0 (G.histTotal p.name))))
  | _, _ => s

/-- One entry of the planned action list (JS `{name, loops}`). -/
structure Entry where
  name : Name
  loops : Nat

/-- Per-entry output row: the resource snapshot passed to the template plus
the entry's validity flag. -/
structure Snapshot where
  resources : Resources
  isValid : Bool

/-- The `actions.forEach` of `Predictor.update`: resolve the prediction by
name (silently skipping unknown names), ensure the progression record, run
every repetition, emit one snapshot per resolved entry, and thread the state
and the running mana total. -/
def updateGo (G : Globals) (fuel : Nat) (preds : Name → Option Prediction) :
    List Entry → SimState → ℚ → Option (List Snapshot × ℚ × SimState)
  | [], s, total => some ([], total, s)
  | e :: rest, s, total =>
      match preds e.name with
      | none => updateGo G fuel preds rest s total
      | some p =>
          match runEntry G fuel p e.loops (ensureProgress G p s) total true with
          | none => none
          | some (s1, t1, v1) =>
              match updateGo G fuel preds rest s1 t1 with
              | none => none
              | some (snaps, tf, sf) => some (Snapshot.mk s1.resources v1 :: snaps, tf, sf)

/-- Fresh simulation state of `Predictor.update`: mana seeded to 250, every
recognized stat seeded to experience 0, no progression records.  (The
source's pre-initialization of affected resources to 0 is a no-op in the
total-map-with-default-0 model of the ledger.) -/
def initState (G : Globals) : SimState :=
  SimState.mk (fun i => if i ∈ G.statList then some 0 else none)
    (fun n => if n = manaKey then 250 else 0) (fun _ => none)

/-- JS `Predictor.update(actions, ...)` restricted to its simulation core:
returns the list of per-entry snapshots, the cumulative mana total and the
final state, or `none` when the simulation throws. -/
def update (G : Globals) (fuel : Nat) (preds : Name → Option Prediction)
    (actions : List Entry) : Option (List Snapshot × ℚ × SimState) :=
  updateGo G fuel preds actions (initState G) 0

/-- Effect of one iteration of the tick loop of `predict` on a run of a
non-loop action: one mana decrement followed by the experience gain (a
non-loop tick changes nothing else). -/
def stepNL (G : Globals) (a : ActionDef) (T : Int) (s : SimState) : SimState :=
  SimState.mk (expApply G a T s.stats)
    (setF s.resources manaKey (s.resources manaKey - 1)) s.progress

/- Concrete instances used by counterexamples and witnesses.  One recognized
stat (key 1); the level-from-experience query returns level 0 everywhere, the
experience bonus is 1, historical loop totals are 0. -/

/-- Example globals: stat list [1], level always 0, bonus 1, history 0. -/
def Gex : Globals := Globals.mk [1] (fun _ => 0) (fun _ => 1) (fun _ => 0)

/-- Non-loop action (key 10) with stat weight 251 and mana cost 1 (so 251
ticks from fresh stats) whose top-level effect grants 100 mana — the shape of
the catalog's "Smash Pots".  Zero experience multiplier keeps stats flat. -/
def drainAct : Prediction :=
  Prediction.mk 10
    (ActionDef.mk (fun i => if i = 1 then some 251 else none) 0 1 0)
    (some (fun r => setF r manaKey (r manaKey + 100))) none

/-- Non-loop action (key 11) with stat weight 1 and mana cost 1 (one tick per
repetition) and no effect — the shape of the catalog's "Wander". -/
def plainAct : Prediction :=
  Prediction.mk 11
    (ActionDef.mk (fun i => if i = 1 then some 1 else none) 0 1 0)
    none none

/-- Prediction registry holding `drainAct` and `plainAct` only. -/
def predsEx : Name → Option Prediction :=
  fun n => if n = 10 then some drainAct else if n = 11 then some plainAct else none

/-- The claimed zero-tick scenario: an action (key 20) with no stat weights
and mana cost 50 whose top-level effect grants 100 mana. -/
def zeroWeightAct : Prediction :=
  Prediction.mk 20 (ActionDef.mk (fun _ => none) 1 50 0)
    (some (fun r => setF r manaKey (r manaKey + 100))) none

/-- Prediction registry holding `zeroWeightAct` only. -/
def predsZero : Name → Option Prediction :=
  fun n => if n = 20 then some zeroWeightAct else none

/-- Loop descriptor with constant segment cost 10 and zero per-tick progress
(no cap, no effects). -/
def stallLoop : LoopDef := LoopDef.mk none (fun _ _ => 10) (fun _ _ _ _ => 0) none none

/-- Loop action (key 30) with tick count 3, two segments per loop and
`stallLoop`: its first tick produces `additionalProgress = 0` and therefore
stops the run early. -/
def stallLoopAct : Prediction :=
  Prediction.mk 30
    (ActionDef.mk (fun i => if i = 1 then some 3 else none) 0 1 2)
    none (some stallLoop)

/-- Loop descriptor with constant segment cost 10 and per-tick progress 12
(no cap, no effects). -/
def overshootLoop : LoopDef :=
  LoopDef.mk none (fun _ _ => 10) (fun _ _ _ _ => 12) none none

/-- Loop action (key 40) with tick count 1, two segments per loop and
`overshootLoop`: one tick crosses a segment boundary without completing a
loop, leaving the persisted progress at 12. -/
def overshootLoopAct : Prediction :=
  Prediction.mk 40
    (ActionDef.mk (fun i => if i = 1 then some 1 else none) 0 1 2)
    none (some overshootLoop)

/-- Loop descriptor with constant segment cost 10 and per-tick progress 25
(no cap, no effects). -/
def fullLoop : LoopDef := LoopDef.mk none (fun _ _ => 10) (fun _ _ _ _ => 25) none none

/-- Loop action (key 50) with tick count 1, two segments per loop and
`fullLoop`: one tick completes a full loop. -/
def fullLoopAct : Prediction :=
  Prediction.mk 50
    (ActionDef.mk (fun i => if i = 1 then some 1 else none) 0 1 2)
    none (some fullLoop)

/-- Non-loop action (key 60) with stat weight 2, experience multiplier 1 and
mana cost 1, so two ticks from fresh stats, each granting experience. -/
def expAct : Prediction :=
  Prediction.mk 60
    (ActionDef.mk (fun i => if i = 1 then some 2 else none) 1 1 0)
    none none

/- Theorems. -/

set_option maxRecDepth 100000

unseal Rat.add Rat.sub Rat.mul Rat.inv

/-- The computable ceiling agrees with the mathematical ceiling. -/
theorem ceilQ_eq_ceil (q : ℚ) : ceilQ q = Int.ceil q := by
  have h1 : Rat.floor (-q) = Int.floor (-q) := by
    rw [Rat.floor_def' (-q), Rat.floor_def]
  rw [ceilQ, h1, Int.floor_neg, neg_neg]

/-- Folding addition of a mapped value from an accumulator is the accumulator
plus the mapped sum. -/
theorem foldl_add_map (f : Name → ℚ) (l : List Name) (c : ℚ) :
    l.foldl (fun acc i => acc + f i) c = c + (l.map f).sum := by
  induction l generalizing c with
  | nil => simp
  | cons x xs ih => simp [ih, add_assoc]

/-- C3: for every action definition and stats table, `updateTicks` computes
the ceiling of `manaCost * S - 1e-6`, where `S` sums
`weight(statName) / (1 + level(stats[statName]) / 100)` over the recognized
stat names, a stat missing from the weight map or the stats table
contributing 0; the computation is total (always succeeds). -/
theorem c3_updateTicks_formula (G : Globals) (a : ActionDef) (s : Stats) :
    updateTicks G a s = Int.ceil (a.manaCost * specStatCost G a s - 1 / 1000000) := by
  rw [updateTicks, ← ceilQ_eq_ceil, specStatCost,
    foldl_add_map (fun i =>
      match a.stats i, s i with
      | some w, some e => w / (1 + G.getLevelFromExp e / 100)
      | _, _ => 0) G.statList 0, zero_add]

/-- Entries whose name resolves to no prediction are skipped by the engine
without touching the state, the total or the snapshot list. -/
theorem updateGo_skip (G : Globals) (fuel : Nat) (preds : Name → Option Prediction)
    (nm : Name) (k : Nat) (h : preds nm = none) :
    ∀ (xs : List Entry) (s : SimState) (total : ℚ) (ys : List Entry),
      updateGo G fuel preds (xs ++ Entry.mk nm k :: ys) s total
        = updateGo G fuel preds (xs ++ ys) s total := by
  intro xs
  induction xs with
  | nil =>
      intro s total ys
      simp only [List.nil_append, updateGo, h]
  | cons e xs ih =>
      intro s total ys
      cases hp : preds e.name with
      | none =>
          simp only [List.cons_append, updateGo, hp]
          exact ih s total ys
      | some p =>
          cases hr : runEntry G fuel p e.loops (ensureProgress G p s) total true with
          | none => simp only [List.cons_append, updateGo, hp, hr]
          | some x =>
              obtain ⟨s1, t1, v1⟩ := x
              simp only [List.cons_append, updateGo, hp, hr, List.append_eq]
              rw [ih s1 t1 ys]

/-- C10: a list entry whose action name has no registered prediction is
skipped entirely: the simulation result (snapshots, total, final state) is
exactly as if the entry were absent, and nothing extra can fail. -/
theorem c10_unknown_skipped (G : Globals) (fuel : Nat)
    (preds : Name → Option Prediction) (nm : Name) (k : Nat) (xs ys : List Entry)
    (h : preds nm = none) :
    update G fuel preds (xs ++ Entry.mk nm k :: ys) = update G fuel preds (xs ++ ys) := by
  rw [update, update, updateGo_skip G fuel preds nm k h]

/-- Witness for C10: key 99 is not registered, so the singleton list behaves
like the empty list. -/
theorem c10_witness :
    predsEx 99 = none
    ∧ update Gex 1 predsEx ([] ++ Entry.mk 99 1 :: []) = update Gex 1 predsEx ([] ++ []) :=
  ⟨rfl, c10_unknown_skipped Gex 1 predsEx 99 1 [] [] rfl⟩

/-- C8: in every repetition the running total increases by exactly the mana
before the repetition minus the mana after the repetition's ticks, the
difference being taken before the top-level effect is applied (the effect
only enters the returned state, never the total or the validity check). -/
theorem c8_total_counts_preeffect_mana (G : Globals) (fuel : Nat) (p : Prediction)
    (s : SimState) (total : ℚ) (valid : Bool)
    (h : (predict G fuel p s).isSome = true) :
    runRep G fuel p s total valid
      = (predict G fuel p s).map (fun x =>
          (SimState.mk x.1.stats (applyOpt p.effect x.1.resources) x.1.progress,
           total + (s.resources manaKey - x.1.resources manaKey),
           valid && decide (x.1.resources manaKey ≥ 0))) := by
  obtain ⟨a, ha⟩ := Option.isSome_iff_exists.mp h
  obtain ⟨s1, k⟩ := a
  simp [runRep, ha]

/-- Witness for C8 at `plainAct` from the fresh state. -/
theorem c8_witness :
    (predict Gex 2 plainAct (initState Gex)).isSome = true
    ∧ runRep Gex 2 plainAct (initState Gex) 0 true
      = (predict Gex 2 plainAct (initState Gex)).map (fun x =>
          (SimState.mk x.1.stats (applyOpt plainAct.effect x.1.resources) x.1.progress,
           0 + ((initState Gex).resources manaKey - x.1.resources manaKey),
           true && decide (x.1.resources manaKey ≥ 0))) :=
  ⟨by decide, c8_total_counts_preeffect_mana Gex 2 plainAct (initState Gex) 0 true (by decide)⟩

/-- Amended C1: the validity flag is per list entry, not global.  Within a
single entry it degrades monotonically: once false (mana negative after some
repetition), it stays false for every later repetition of that same entry. -/
theorem c1_valid_monotone_within_entry (G : Globals) (fuel : Nat) (p : Prediction) :
    ∀ (n : Nat) (s : SimState) (total : ℚ) (v : Bool),
      (runEntry G fuel p n s total false).map (fun x => x.2.2) = some v → v = false := by
  intro n
  induction n with
  | zero =>
      intro s total v h
      simp only [runEntry, Option.map_some] at h
      exact (Option.some_injective _ h).symm
  | succ m ih =>
      intro s total v h
      rw [runEntry] at h
      cases hp : predict G fuel p s with
      | none => rw [runRep, hp] at h; simp at h
      | some y =>
          obtain ⟨s1, k⟩ := y
          rw [runRep, hp] at h
          simp only [Bool.false_and] at h
          exact ih _ _ v h

/-- Counterexample to C1: running `drainAct` (which leaves mana at −1 after
its 251 ticks, then grants 100 mana) followed by `plainAct` yields snapshots
marked invalid then valid again: the flag is re-initialized per entry and
does return to valid for a later entry. -/
theorem c1_counterexample :
    (update Gex 1 predsEx [Entry.mk 10 1, Entry.mk 11 1]).map
        (fun r => r.1.map Snapshot.isValid) = some [false, true] := by decide

/-- Witness for the amended C1 at one repetition of `plainAct`. -/
theorem c1_witness :
    (runEntry Gex 2 plainAct 1 (initState Gex) 0 false).map (fun x => x.2.2) = some false
    ∧ (false : Bool) = false :=
  ⟨by decide, c1_valid_monotone_within_entry Gex 2 plainAct 1 (initState Gex) 0 false (by decide)⟩

/-- C2 (code behaviour at the claimed scenario): with all-zero stat weights
and mana cost 50, `updateTicks` computes ceil(50·0 − 1e-6) = 0, and the run
then fails: evaluating the loop condition calls `ticks()`, whose
`this._ticks || this.updateTicks()` fallback re-invokes `updateTicks` with no
arguments and throws, so the simulation aborts (`none`) and the top-level
effect is never applied — contradicting the documented intent that the run
completes with zero ticks and applies the effect once. -/
theorem c2_zero_ticks_throws :
    updateTicks Gex zeroWeightAct.action (initState Gex).stats = 0 ∧
    update Gex 1 predsZero [Entry.mk 20 1] = none := by
  exact ⟨by decide, rfl⟩

/-- A tick of a non-loop action with a nonzero cached tick count succeeds,
signals continue, and only applies the experience gain. -/
theorem tickOp_nonloop (G : Globals) (fuel : Nat) (p : Prediction) (T : Int)
    (s : SimState) (hnl : p.loop = none) (hT : T ≠ 0) :
    tickOp G fuel p T s
      = some (true, SimState.mk (expApply G p.action T s.stats) s.resources s.progress) := by
  simp [tickOp, tickFull, ticksVal, hnl, hT]

/-- The tick loop of a run of a non-loop action never stops early: it
performs exactly as many iterations as requested, each iteration being one
mana decrement followed by the experience gain. -/
theorem predictLoop_nonloop (G : Globals) (fuel : Nat) (p : Prediction) (T : Int)
    (hnl : p.loop = none) (hT : T ≠ 0) :
    ∀ (r : Nat) (s : SimState),
      predictLoop G fuel p T r s = some ((stepNL G p.action T)^[r] s, r) := by
  intro r
  induction r with
  | zero => intro s; simp [predictLoop]
  | succ m ih =>
      intro s
      simp only [predictLoop, tickOp_nonloop G fuel p T (decManaState s) hnl hT, ih,
        Function.iterate_succ_apply]
      rfl

/-- A run of a non-loop action with a nonzero freshly computed tick count `T`
performs exactly `T.toNat` mana decrements (counted by `predict`). -/
theorem predict_nonloop (G : Globals) (fuel : Nat) (p : Prediction) (s : SimState)
    (hnl : p.loop = none) (hT : updateTicks G p.action s.stats ≠ 0) :
    predict G fuel p s
      = some ((stepNL G p.action (updateTicks G p.action s.stats))^[(updateTicks G p.action s.stats).toNat] s,
              (updateTicks G p.action s.stats).toNat) := by
  simp only [predict, ticksVal, if_neg hT]
  exact predictLoop_nonloop G fuel p _ hnl hT _ s

/-- Amended C5: for a run of a non-loop action, the number of mana decrements
equals exactly the `ticks` value computed by `updateTicks` at the start of
the run (for loop actions an early stop can end the run after fewer
decrements, see the counterexample), and in every repetition all mana
decrements happen inside `predict`, strictly before the single application of
the run's top-level resource effect. -/
theorem c5_run_decrements (G : Globals) (fuel : Nat) (p : Prediction) (s : SimState)
    (total : ℚ) (valid : Bool) (hnl : p.loop = none)
    (hT : updateTicks G p.action s.stats ≠ 0) :
    (predict G fuel p s).map (fun x => x.2)
        = some (updateTicks G p.action s.stats).toNat ∧
    (runRep G fuel p s total valid).map (fun x => x.1.resources)
        = (predict G fuel p s).map (fun x => applyOpt p.effect x.1.resources) := by
  have hp := predict_nonloop G fuel p s hnl hT
  constructor
  · rw [hp]; rfl
  · simp [runRep, hp]

/-- Witness for the amended C5 at one repetition of `plainAct`. -/
theorem c5_witness :
    updateTicks Gex plainAct.action (initState Gex).stats ≠ 0
    ∧ (predict Gex 1 plainAct (initState Gex)).map (fun x => x.2)
        = some (updateTicks Gex plainAct.action (initState Gex).stats).toNat ∧
    (runRep Gex 1 plainAct (initState Gex) 0 true).map (fun x => x.1.resources)
        = (predict Gex 1 plainAct (initState Gex)).map
            (fun x => applyOpt plainAct.effect x.1.resources) :=
  ⟨by decide, c5_run_decrements Gex 1 plainAct (initState Gex) 0 true rfl (by decide)⟩

/-- Counterexample to C5 as stated: `stallLoopAct` has tick count 3, but its
first tick produces zero additional progress, so the run stops after a single
mana decrement — the decrement count (1) differs from the computed ticks
value (3). -/
theorem c5_counterexample :
    (predict Gex 5 stallLoopAct (ensureProgress Gex stallLoopAct (initState Gex))).map
        (fun x => x.2) = some 1 ∧
    updateTicks Gex stallLoopAct.action
        (ensureProgress Gex stallLoopAct (initState Gex)).stats = 3 ∧
    (1 : Nat) ≠ 3 := by
  refine ⟨?_, ?_, ?_⟩ <;> decide

/-- The experience fold leaves stat keys outside the processed list
untouched. -/
theorem expApplyGo_not_mem (G : Globals) (a : ActionDef) (T : Int) :
    ∀ (l : List Name) (s : Stats) (i : Name), i ∉ l → expApplyGo G a T l s i = s i := by
  intro l
  induction l with
  | nil => intro s i _; rfl
  | cons j js ih =>
      intro s i h
      have hij : i ≠ j := fun he => h (he ▸ List.mem_cons_self j js)
      have hjs : i ∉ js := fun hm => h (List.mem_cons_of_mem j hm)
      rw [expApplyGo, ih (expStep G a T s j) i hjs, expStep]
      cases a.stats j <;> cases hsj : s j <;> simp [setF, hij]

/-- The experience fold over a duplicate-free stat list adds exactly one
per-tick experience contribution to a stat present in both tables. -/
theorem expApplyGo_at (G : Globals) (a : ActionDef) (T : Int) :
    ∀ (l : List Name) (s : Stats) (i : Name) (w e : ℚ), l.Nodup → i ∈ l →
      a.stats i = some w → s i = some e →
      expApplyGo G a T l s i
        = some (e + w * a.expMult * (a.manaCost / (T : ℚ)) * G.getTotalBonusXP i) := by
  intro l
  induction l with
  | nil => intro s i w e _ hi; exact absurd hi (List.not_mem_nil i)
  | cons j js ih =>
      intro s i w e hnd hi hw he
      rw [expApplyGo]
      by_cases hij : i = j
      · subst hij
        have hnotin : i ∉ js := (List.nodup_cons.mp hnd).1
        rw [expApplyGo_not_mem G a T js _ i hnotin, expStep, hw, he]
        simp [setF]
      · have hi' : i ∈ js := by
          cases List.mem_cons.mp hi with
          | inl h => exact absurd h hij
          | inr h => exact h
        have hsi : expStep G a T s j i = s i := by
          rw [expStep]
          cases a.stats j <;> cases s j <;> simp [setF, hij]
        exact ih (expStep G a T s j) i w e (List.nodup_cons.mp hnd).2 hi' hw
          (hsi.trans he)

/-- Iterating the non-loop tick step accumulates the per-tick experience
linearly in the stat table. -/
theorem stepNL_stats_at (G : Globals) (a : ActionDef) (T : Int) (i : Name) (w : ℚ)
    (hnd : G.statList.Nodup) (hi : i ∈ G.statList) (hw : a.stats i = some w) :
    ∀ (r : Nat) (s : SimState) (e : ℚ), s.stats i = some e →
      ((stepNL G a T)^[r] s).stats i
        = some (e + r * (w * a.expMult * (a.manaCost / (T : ℚ)) * G.getTotalBonusXP i)) := by
  intro r
  induction r with
  | zero => intro s e he; simpa using he
  | succ m ih =>
      intro s e he
      have h1 : (stepNL G a T s).stats i
          = some (e + w * a.expMult * (a.manaCost / (T : ℚ)) * G.getTotalBonusXP i) :=
        expApplyGo_at G a T G.statList s.stats i w e hnd hi hw he
      rw [Function.iterate_succ_apply, ih (stepNL G a T s) _ h1]
      congr 1
      push_cast
      ring

/-- C9: for every non-loop action with positive computed tick count and every
stat present in the action's weight map and the (duplicate-free) stats table,
the run's total experience gain on that stat is exactly
`weight * expMultiplier * manaCost * bonusMultiplier(stat)` — the per-tick
contributions over all ticks sum to that product. -/
theorem c9_exp_sum (G : Globals) (fuel : Nat) (p : Prediction) (s : SimState)
    (i : Name) (w e : ℚ) (hnl : p.loop = none) (hnd : G.statList.Nodup)
    (hi : i ∈ G.statList) (hw : p.action.stats i = some w) (he : s.stats i = some e)
    (hT : 0 < updateTicks G p.action s.stats) :
    (predict G fuel p s).map (fun x => x.1.stats i)
      = some (some (e + w * p.action.expMult * p.action.manaCost * G.getTotalBonusXP i)) := by
  have hT0 : updateTicks G p.action s.stats ≠ 0 := hT.ne'
  have hp := predict_nonloop G fuel p s hnl hT0
  rw [hp]
  have hst := stepNL_stats_at G p.action (updateTicks G p.action s.stats) i w hnd hi hw
    (updateTicks G p.action s.stats).toNat s e he
  simp only [Option.map_some']
  rw [hst]
  have hTQ : (((updateTicks G p.action s.stats).toNat : ℕ) : ℚ)
      = ((updateTicks G p.action s.stats : ℤ) : ℚ) := by
    exact_mod_cast Int.toNat_of_nonneg hT.le
  have hTne : ((updateTicks G p.action s.stats : ℤ) : ℚ) ≠ 0 :=
    Int.cast_ne_zero.mpr hT0
  rw [hTQ]
  have harith : ((updateTicks G p.action s.stats : ℤ) : ℚ)
        * (w * p.action.expMult
            * (p.action.manaCost / ((updateTicks G p.action s.stats : ℤ) : ℚ))
            * G.getTotalBonusXP i)
      = w * p.action.expMult * p.action.manaCost * G.getTotalBonusXP i := by
    field_simp
  rw [harith]

/-- Witness for C9 at two ticks of `expAct` from the fresh state. -/
theorem c9_witness :
    0 < updateTicks Gex expAct.action (initState Gex).stats
    ∧ (predict Gex 2 expAct (initState Gex)).map (fun x => x.1.stats 1)
      = some (some (0 + 2 * expAct.action.expMult * expAct.action.manaCost
          * Gex.getTotalBonusXP 1)) :=
  ⟨by decide, c9_exp_sum Gex 2 expAct (initState Gex) 1 2 0 rfl (by decide) (by decide) rfl
    (by decide) (by decide)⟩

/-- Along the second walk of a tick, `completed` grows by `segments per loop`
exactly when `total` grows by 1 (once per completed loop), and the persisted
progress is either reset to 0 by a loop completion or left at its input
value. -/
theorem walk2_progression (L : LoopDef) (ts : Nat) (maxS : Option ℚ) :
    ∀ (fuel : Nat) (pr : ℚ) (seg : Int) (prog : Progression) (res : Resources)
      (pr' : ℚ) (seg' : Int) (prog' : Progression) (res' : Resources),
      walk2 L ts maxS fuel pr seg prog res = some (pr', seg', prog', res') →
      ∃ n : Nat, prog'.completed = prog.completed + n * (ts : ℚ)
        ∧ prog'.total = prog.total + n
        ∧ (prog'.progress = 0 ∨ prog'.progress = prog.progress) := by
  intro fuel
  induction fuel with
  | zero =>
      intro pr seg prog res pr' seg' prog' res' h
      rw [walk2] at h
      split at h
      · exact absurd h (by simp)
      · simp only [Option.some.injEq, Prod.mk.injEq] at h
        obtain ⟨-, -, rfl, -⟩ := h
        exact ⟨0, by simp, by simp, Or.inr rfl⟩
  | succ m ih =>
      intro pr seg prog res pr' seg' prog' res' h
      rw [walk2] at h
      split at h
      · split at h
        · obtain ⟨n, h1, h2, h3⟩ := ih _ _ _ _ _ _ _ _ h
          refine ⟨n + 1, ?_, ?_, ?_⟩
          · rw [h1]; push_cast; ring
          · rw [h2]; push_cast; ring
          · rcases h3 with h3 | h3
            · exact Or.inl h3
            · exact Or.inl h3
        · exact ih _ _ _ _ _ _ _ _ h
      · simp only [Option.some.injEq, Prod.mk.injEq] at h
        obtain ⟨-, -, rfl, -⟩ := h
        exact ⟨0, by simp, by simp, Or.inr rfl⟩

/-- Dissection of a successful loop-action tick: the resulting progression
record relates to the input record by `n` completed loops, and its progress
is either 0 (reset at a loop completion) or the input progress plus the
tick's additional progress. -/
theorem tickOp_loop_progress (G : Globals) (fuel : Nat) (p : Prediction) (T : Int)
    (s : SimState) (L : LoopDef) (prog prog' : Progression)
    (hl : p.loop = some L) (hs : s.progress p.name = some prog)
    (h : (tickOp G fuel p T s).map (fun x => x.2.progress p.name) = some (some prog')) :
    ∃ (n : Nat) (seg1 : Int),
      T ≠ 0
      ∧ prog'.completed = prog.completed + n * (p.action.segments : ℚ)
      ∧ prog'.total = prog.total + n
      ∧ (prog'.progress = 0 ∨
          prog'.progress = prog.progress
            + L.tickf prog (expApply G p.action T s.stats) s.resources seg1
              * (p.action.manaCost / (T : ℚ))) := by
  by_cases hT : T = 0
  · rw [tickOp, tickFull, ticksVal, if_pos hT] at h
    exact absurd h (by simp)
  · simp only [tickOp, tickFull, ticksVal, if_neg hT, hl, hs] at h
    rcases hw1 : walk1 L.cost prog fuel prog.progress 0 with _ | ⟨pr1, seg1⟩
    · simp [hw1] at h
    · simp only [hw1] at h
      rcases hw2 : walk2 L p.action.segments (L.maxv.map (fun m => m * (p.action.segments : ℚ)))
          fuel
          (pr1 + L.tickf prog (expApply G p.action T s.stats) s.resources seg1
            * (p.action.manaCost / (T : ℚ)))
          seg1
          (Progression.mk
            (prog.progress + L.tickf prog (expApply G p.action T s.stats) s.resources seg1
              * (p.action.manaCost / (T : ℚ)))
            prog.completed prog.total)
          s.resources with _ | ⟨pr3, seg3, prog3, res3⟩
      · simp [hw2] at h
      · simp only [hw2] at h
        simp [setF] at h
        obtain ⟨n, h1, h2, h3⟩ :=
          walk2_progression L p.action.segments _ fuel _ _ _ _ _ _ _ _ hw2
        refine ⟨n, seg1, hT, ?_, ?_, ?_⟩
        · rw [← h, h1]
        · rw [← h, h2]
        · rcases h3 with h3 | h3
          · exact Or.inl (by rw [← h, h3])
          · exact Or.inr (by rw [← h, h3])

/-- C6: across every successful tick of a loop-capable action,
`progression.completed` and `progression.total` change together —
`completed` grows by exactly `segmentsPerLoop` times the growth of `total` —
and neither field ever decreases. -/
theorem c6_completed_total_coupled (G : Globals) (fuel : Nat) (p : Prediction)
    (T : Int) (s : SimState) (L : LoopDef) (prog prog' : Progression)
    (hl : p.loop = some L) (hs : s.progress p.name = some prog)
    (h : (tickOp G fuel p T s).map (fun x => x.2.progress p.name) = some (some prog')) :
    prog'.completed = prog.completed + (p.action.segments : ℚ) * (prog'.total - prog.total)
    ∧ prog.total ≤ prog'.total ∧ prog.completed ≤ prog'.completed := by
  obtain ⟨n, seg1, -, h1, h2, -⟩ := tickOp_loop_progress G fuel p T s L prog prog' hl hs h
  refine ⟨?_, ?_, ?_⟩
  · rw [h1, h2]; ring
  · rw [h2]; exact le_add_of_nonneg_right (by positivity)
  · rw [h1]; exact le_add_of_nonneg_right (by positivity)

/-- Witness for C6: one tick of `fullLoopAct` completes one loop, taking the
progression from (0, 0, 0) to (0, 2, 1). -/
theorem c6_witness :
    (tickOp Gex 5 fullLoopAct 1 (ensureProgress Gex fullLoopAct (initState Gex))).map
        (fun x => x.2.progress 50) = some (some (Progression.mk 0 2 1))
    ∧ (Progression.mk 0 2 1).completed
        = (Progression.mk 0 0 0).completed
          + (fullLoopAct.action.segments : ℚ)
            * ((Progression.mk 0 2 1).total - (Progression.mk 0 0 0).total)
    ∧ (Progression.mk 0 0 0).total ≤ (Progression.mk 0 2 1).total
    ∧ (Progression.mk 0 0 0).completed ≤ (Progression.mk 0 2 1).completed :=
  ⟨by decide, c6_completed_total_coupled Gex 5 fullLoopAct 1
    (ensureProgress Gex fullLoopAct (initState Gex)) fullLoop
    (Progression.mk 0 0 0) (Progression.mk 0 2 1) rfl (by decide) (by decide)⟩

/-- Amended C4: after every successful tick of a loop-capable action the
persisted progress stays nonnegative (given nonnegative per-tick progress,
mana cost and tick count), but it is not in general below the cost of the
current segment: it accumulates across segment boundaries within a loop and
is reset to 0 only when a full loop completes (see the counterexample). -/
theorem c4_progress_nonneg (G : Globals) (fuel : Nat) (p : Prediction) (T : Int)
    (s : SimState) (L : LoopDef) (prog prog' : Progression)
    (hl : p.loop = some L) (hs : s.progress p.name = some prog)
    (h0 : 0 ≤ prog.progress)
    (htick : ∀ (q : Progression) (st : Stats) (r : Resources) (sg : Int),
      0 ≤ L.tickf q st r sg)
    (hmc : 0 ≤ p.action.manaCost) (hT : 0 ≤ T)
    (h : (tickOp G fuel p T s).map (fun x => x.2.progress p.name) = some (some prog')) :
    0 ≤ prog'.progress := by
  obtain ⟨n, seg1, -, -, -, h3⟩ := tickOp_loop_progress G fuel p T s L prog prog' hl hs h
  rcases h3 with h3 | h3
  · rw [h3]
  · rw [h3]
    have hTQ : (0 : ℚ) ≤ ((T : ℤ) : ℚ) := by exact_mod_cast hT
    exact add_nonneg h0 (mul_nonneg (htick _ _ _ _) (div_nonneg hmc hTQ))

/-- Counterexample to C4 as stated: one tick of `overshootLoopAct` leaves the
persisted progress at 12, while the current (next incomplete) segment —
segment 1, as recomputed by the first walk — still costs 10: the stored
progress is not below the current segment's cost. -/
theorem c4_counterexample :
    (tickFull Gex 5 overshootLoopAct 1 (ensureProgress Gex overshootLoopAct (initState Gex))).map
        (fun x => x.2.1.progress 40) = some (some (Progression.mk 12 0 0)) ∧
    walk1 overshootLoop.cost (Progression.mk 12 0 0) 5 (Progression.mk 12 0 0).progress 0
      = some (2, 1) ∧
    ¬ ((Progression.mk 12 0 0).progress < overshootLoop.cost (Progression.mk 12 0 0) 1) := by
  refine ⟨?_, ?_, ?_⟩ <;> decide

/-- Witness for the amended C4: the tick of `overshootLoopAct` leaves a
nonnegative persisted progress. -/
theorem c4_witness :
    (tickOp Gex 5 overshootLoopAct 1 (ensureProgress Gex overshootLoopAct (initState Gex))).map
        (fun x => x.2.progress 40) = some (some (Progression.mk 12 0 0))
    ∧ (0 : ℚ) ≤ (Progression.mk 12 0 0).progress :=
  ⟨by decide, c4_progress_nonneg Gex 5 overshootLoopAct 1
    (ensureProgress Gex overshootLoopAct (initState Gex)) overshootLoop
    (Progression.mk 0 0 0) (Progression.mk 12 0 0) rfl (by decide) (by decide)
    (fun _ _ _ _ => by norm_num [overshootLoop]) (by decide) (by decide) (by decide)⟩

/-- C7: a tick of a loop-capable action signals continue exactly when its
additional progress was nonzero and the final segment index is still below
`max * segmentsPerLoop` — in particular once the segment index reaches the
cap the tick signals stop — and as soon as a tick signals stop the run ends
with that tick: the repetition performs exactly the one mana decrement of the
stopping tick and no further ones. -/
theorem c7_stop_at_cap :
    (∀ (G : Globals) (fuel : Nat) (p : Prediction) (T : Int) (s : SimState) (L : LoopDef)
      (c : Bool) (ap : ℚ) (seg : Int), p.loop = some L →
      (tickFull G fuel p T s).map (fun x => (x.1, x.2.2)) = some (c, ap, seg) →
      (c = true ↔ ap ≠ 0
        ∧ ltMax seg (L.maxv.map (fun m => m * (p.action.segments : ℚ))) = true))
    ∧ (∀ (G : Globals) (fuel : Nat) (p : Prediction) (T : Int) (r : Nat) (s : SimState),
      (tickOp G fuel p T (decManaState s)).map (fun x => x.1) = some false →
      predictLoop G fuel p T (r + 1) s
        = (tickOp G fuel p T (decManaState s)).map (fun x => (x.2, 1))) := by
  constructor
  · intro G fuel p T s L c ap seg hl h
    by_cases hT : T = 0
    · rw [tickFull, ticksVal, if_pos hT] at h
      exact absurd h (by simp)
    · simp only [tickFull, ticksVal, if_neg hT, hl] at h
      rcases hs : s.progress p.name with _ | prog
      · simp [hs] at h
      · simp only [hs] at h
        rcases hw1 : walk1 L.cost prog fuel prog.progress 0 with _ | ⟨pr1, seg1⟩
        · simp [hw1] at h
        · simp only [hw1] at h
          rcases hw2 : walk2 L p.action.segments
              (L.maxv.map (fun m => m * (p.action.segments : ℚ))) fuel
              (pr1 + L.tickf prog (expApply G p.action T s.stats) s.resources seg1
                * (p.action.manaCost / (T : ℚ)))
              seg1
              (Progression.mk
                (prog.progress + L.tickf prog (expApply G p.action T s.stats) s.resources seg1
                  * (p.action.manaCost / (T : ℚ)))
                prog.completed prog.total)
              s.resources with _ | ⟨pr3, seg3, prog3, res3⟩
          · simp [hw2] at h
          · simp only [hw2] at h
            simp only [Option.map_some', Option.some.injEq, Prod.mk.injEq] at h
            obtain ⟨rfl, rfl, rfl⟩ := h
            constructor
            · intro hc
              have := (Bool.and_eq_true _ _).mp hc
              exact ⟨of_decide_eq_true this.1, this.2⟩
            · intro ⟨h1, h2⟩
              exact (Bool.and_eq_true _ _).mpr ⟨decide_eq_true h1, h2⟩
  · intro G fuel p T r s h
    rcases ht : tickOp G fuel p T (decManaState s) with _ | ⟨c, s2⟩
    · simp [ht] at h
    · simp only [ht] at h
      simp only [Option.map_some', Option.some.injEq] at h
      subst h
      simp only [predictLoop, ht, Option.map_some']

/-- Witness for C7: the stopping tick of `stallLoopAct` (zero additional
progress, final segment 0) signals stop, and the run at that tick ends with
exactly one mana decrement. -/
theorem c7_witness :
    (tickFull Gex 5 stallLoopAct 3
        (decManaState (ensureProgress Gex stallLoopAct (initState Gex)))).map
        (fun x => (x.1, x.2.2)) = some (false, 0, 0)
    ∧ ((false : Bool) = true ↔ (0 : ℚ) ≠ 0
      ∧ ltMax 0 (stallLoop.maxv.map (fun m => m * (stallLoopAct.action.segments : ℚ))) = true)
    ∧ predictLoop Gex 5 stallLoopAct 3 (0 + 1) (ensureProgress Gex stallLoopAct (initState Gex))
        = (tickOp Gex 5 stallLoopAct 3
            (decManaState (ensureProgress Gex stallLoopAct (initState Gex)))).map
            (fun x => (x.2, 1)) :=
  ⟨by decide,
   c7_stop_at_cap.1 Gex 5 stallLoopAct 3
      (decManaState (ensureProgress Gex stallLoopAct (initState Gex))) stallLoop
      false 0 0 rfl (by decide),
   c7_stop_at_cap.2 Gex 5 stallLoopAct 3 0
      (ensureProgress Gex stallLoopAct (initState Gex)) (by decide)⟩

end Koviko
